import Mathlib

/-!
Shallow embedding of the bptree B+tree engine.

The node-level algorithms (`Leaf.set`, `Leaf.remove`, `Internal.set`,
`Internal.removePage`, routing, splitting) are translated from
`src/src/node.rs`.  The coordinator (`BTree.set` / `BTree.get` /
`BTree.remove` wrappers, first-root creation, new-root creation on split,
`entry_count` maintenance, the free-page list and the `keys()` leaf-chain
iterator) is not present under `src/` (only its callers and tests are);
it is modelled from the specification, section 4.6, and from the older
coordinator iteration in `src/src/lib.rs` where the two agree.

Machine details modelled explicitly: Rust `usize` subtraction that can
underflow is `usizeSub` (panic becomes `none`); `Vec` indexing, `insert`
and `remove` are guarded so that an out-of-bounds access becomes `none`;
`slice::binary_search` is the midpoint loop of the Rust standard library.
All fallible or panicking paths return `none`.
-/

namespace BPT

/-- Rust `usize` subtraction: `a - b` panics (here `none`) on underflow. -/
def usizeSub (a b : Nat) : Option Nat :=
  if b ≤ a then some (a - b) else none

/-- Rust `Vec::insert(i, a)`: panics (here `none`) when `i > len`. -/
def vecInsert (xs : List α) (i : Nat) (a : α) : Option (List α) :=
  if i ≤ xs.length then some (xs.take i ++ a :: xs.drop i) else none

/-- Rust `Vec::remove(i)`: returns the removed element and the remaining
list; panics (here `none`) when `i ≥ len`. -/
def vecRemoveAt (xs : List α) (i : Nat) : Option (α × List α) :=
  match xs[i]? with
  | none => none
  | some a => some (a, xs.eraseIdx i)

/-- Insertion into a list at index `i` (the successful case of
`vecInsert`), used to state theorems. -/
def insListAt (i : Nat) (a : α) (xs : List α) : List α :=
  xs.take i ++ a :: xs.drop i

/-- Rust `slice::binary_search` midpoint loop.  `fuel` only bounds the
iteration count; `binarySearch` supplies `length + 1`, which always
suffices because the window shrinks every iteration.  Result `inl i`
is Rust `Ok(i)` (match at `i`), `inr i` is Rust `Err(i)` (insertion
point `i`). -/
def bsGo [LinearOrder K] (xs : List K) (key : K) : Nat → Nat → Nat → Nat ⊕ Nat
  | 0, left, _right => Sum.inr left
  | fuel + 1, left, right =>
    if left < right then
      if xs.getD (left + (right - left) / 2) key < key then
        bsGo xs key fuel (left + (right - left) / 2 + 1) right
      else if key < xs.getD (left + (right - left) / 2) key then
        bsGo xs key fuel left (left + (right - left) / 2)
      else Sum.inl (left + (right - left) / 2)
    else Sum.inr left

/-- `keys.binary_search(&key)` from the Rust standard library. -/
def binarySearch [LinearOrder K] (xs : List K) (key : K) : Nat ⊕ Nat :=
  bsGo xs key (xs.length + 1) 0 xs.length

/-- `Leaf<K, V>` from src/src/node.rs. -/
structure Leaf (K V : Type) where
  pageNr : Nat
  keys : List K
  entries : List V
  next : Option Nat
deriving Repr, DecidableEq

/-- `Internal<K>` from src/src/node.rs (`entries` are child page numbers). -/
structure Internal (K : Type) where
  pageNr : Nat
  keys : List K
  entries : List Nat
deriving Repr, DecidableEq

/-- `BTNode<K, V>` from src/src/node.rs. -/
inductive BTNode (K V : Type) where
  | internal : Internal K → BTNode K V
  | leaf : Leaf K V → BTNode K V
deriving Repr, DecidableEq

/-- `ChildNodeInfo` from src/src/node.rs. -/
structure ChildNodeInfo where
  pageNr : Nat
  lparent : Option Nat
  rparent : Option Nat
  lsibling : Option Nat
  rsibling : Option Nat
deriving Repr, DecidableEq

/-- The tree state.  `pages` is the paged store (page n holds
`pages.getD n none`); the remaining fields are the metadata envelope of
spec section 3 (`root_page_nr`, `node_count`, `entry_count`,
`free_pages`, `max_key_count`, `split_at`). -/
structure BTree (K V : Type) where
  pages : List (Option (BTNode K V))
  rootPageNr : Nat
  nodeCount : Nat
  entryCount : Nat
  freePages : List Nat
  maxKeyCount : Nat
  splitAt : Nat
deriving Repr, DecidableEq

variable {K V : Type} [LinearOrder K]

def BTNode.pageNr : BTNode K V → Nat
  | .internal nd => nd.pageNr
  | .leaf lf => lf.pageNr

/-- `read_page` / `load_node`: fetch the node stored at a page; a missing
page (an I/O or decode error in the Rust code) is `none`. -/
def BTree.loadNode (bt : BTree K V) (pageNr : Nat) : Option (BTNode K V) :=
  (bt.pages.getD pageNr none)

def setPage (pages : List (Option (BTNode K V))) (n : Nat) (nd : BTNode K V) :
    List (Option (BTNode K V)) :=
  if n < pages.length then pages.set n (some nd)
  else pages ++ List.replicate (n - pages.length) none ++ [some nd]

/-- `store_node`: write a node at its own page number. -/
def BTree.storeNode (bt : BTree K V) (nd : BTNode K V) : BTree K V :=
  { bt with pages := setPage bt.pages nd.pageNr nd }

/-- `next_page_nr` from src/src/lib.rs: return `node_count` and bump it. -/
def BTree.nextPageNr (bt : BTree K V) : Nat × BTree K V :=
  (bt.nodeCount, { bt with nodeCount := bt.nodeCount + 1 })

/-- Modelled from the spec: `on_page_deleted` is not under src/ (only its
callers in node.rs are); per spec section 3 lifecycle a reclaimed page
is appended to `free_pages`. -/
def BTree.onPageDeleted (bt : BTree K V) (pageNr : Nat) : BTree K V :=
  { bt with freePages := bt.freePages ++ [pageNr] }

/-- `Leaf::get` (src/src/node.rs lines 31-36).  Outer `none` is a panic
(index out of bounds); `some none` is Rust `None` (key absent). -/
def Leaf.get (lf : Leaf K V) (key : K) : Option (Option V) :=
  match binarySearch lf.keys key with
  | .inl i => (lf.entries[i]?).map some
  | .inr _ => some none

/-- `Leaf::is_full` (line 157). -/
def Leaf.isFull (lf : Leaf K V) (maxKeyCount : Nat) : Bool :=
  maxKeyCount ≤ lf.keys.length

/-- `Leaf::split` (lines 164-171): the new right leaf takes
`keys[split_at..]` and inherits `self.next`; the left keeps
`[0, split_at)` and points at the new page.  `split_key` is the
pre-split `keys[split_at]`. -/
def Leaf.split (lf : Leaf K V) (pageNr splitAt : Nat) :
    Option (K × Leaf K V × Leaf K V) :=
  match lf.keys[splitAt]? with
  | none => none
  | some splitKey =>
    if splitAt ≤ lf.entries.length then
      some (splitKey,
        ⟨lf.pageNr, lf.keys.take splitAt, lf.entries.take splitAt, some pageNr⟩,
        ⟨pageNr, lf.keys.drop splitAt, lf.entries.drop splitAt, lf.next⟩)
    else none

/-- `Leaf::insert` (lines 173-176). -/
def Leaf.insertAt (lf : Leaf K V) (i : Nat) (key : K) (value : V) :
    Option (Leaf K V) :=
  match vecInsert lf.keys i key, vecInsert lf.entries i value with
  | some keys, some entries => some ⟨lf.pageNr, keys, entries, lf.next⟩
  | _, _ => none

/-- The full-leaf branch of `Leaf::set` (lines 59-69): allocate a page,
split, insert the new pair into the side owning index `i`, store both. -/
def Leaf.splitAndInsert (bt : BTree K V) (lf : Leaf K V) (key : K) (value : V)
    (i : Nat) : Option ((Option (K × Nat) × Option V) × BTree K V) :=
  let pn := (bt.nextPageNr).1
  let bt1 := (bt.nextPageNr).2
  match lf.split pn bt1.splitAt with
  | none => none
  | some (splitKey, selfL, newLeaf) =>
    if i < bt1.splitAt then
      match selfL.insertAt i key value with
      | none => none
      | some selfL1 =>
        some ((some (splitKey, pn), none),
          (bt1.storeNode (.leaf selfL1)).storeNode (.leaf newLeaf))
    else
      match newLeaf.insertAt (i - bt1.splitAt) key value with
      | none => none
      | some newLeaf1 =>
        some ((some (splitKey, pn), none),
          (bt1.storeNode (.leaf selfL)).storeNode (.leaf newLeaf1))

/-- `Leaf::set` (lines 47-77). -/
def Leaf.set (bt : BTree K V) (lf : Leaf K V) (key : K) (value : V) :
    Option ((Option (K × Nat) × Option V) × BTree K V) :=
  match binarySearch lf.keys key with
  | .inl i =>
    match lf.entries[i]? with
    | none => none
    | some originalValue =>
      some ((none, some originalValue),
        bt.storeNode (.leaf ⟨lf.pageNr, lf.keys, lf.entries.set i value, lf.next⟩))
  | .inr i =>
    if lf.isFull bt.maxKeyCount then
      Leaf.splitAndInsert bt lf key value i
    else
      match lf.insertAt i key value with
      | none => none
      | some lf1 => some ((none, none), bt.storeNode (.leaf lf1))

/-- `Internal::get` (lines 241-246): routing.  Exact match descends into
the right subtree `entries[i + 1]`; not-found descends into
`entries[i]`. -/
def Internal.get (nd : Internal K) (key : K) : Option Nat :=
  match binarySearch nd.keys key with
  | .inl i => nd.entries[i + 1]?
  | .inr i => nd.entries[i]?

/-- `Internal::is_full` (line 435). -/
def Internal.isFull (nd : Internal K) (maxKeyCount : Nat) : Bool :=
  maxKeyCount ≤ nd.keys.length

/-- `Internal::split` (lines 443-450): the middle key
`split_key = keys[split_at]` is taken out; the left keeps keys
`[0, split_at)` and children `[0, split_at]`; the new right node takes
keys `[split_at+1, end)` and children `[split_at+1, end)`. -/
def Internal.split (nd : Internal K) (pageNr splitAt : Nat) :
    Option (K × Internal K × Internal K) :=
  match nd.keys[splitAt]? with
  | none => none
  | some splitKey =>
    if splitAt + 1 ≤ nd.entries.length then
      some (splitKey,
        ⟨nd.pageNr, nd.keys.take splitAt, nd.entries.take (splitAt + 1)⟩,
        ⟨pageNr, nd.keys.drop (splitAt + 1), nd.entries.drop (splitAt + 1)⟩)
    else none

/-- `Internal::insert` (lines 452-455): key at `i`, child at `i + 1`. -/
def Internal.insertAt (nd : Internal K) (i : Nat) (key : K) (page : Nat) :
    Option (Internal K) :=
  match vecInsert nd.keys i key, vecInsert nd.entries (i + 1) page with
  | some keys, some entries => some ⟨nd.pageNr, keys, entries⟩
  | _, _ => none

/-- The full-node branch of `Internal::set` (lines 261-272): split, then
insert the propagated pair into the side owning index `i`; on the right
side the local index is `i - split_at - 1` computed with Rust `usize`
arithmetic, which underflows (panics, `none`) when `i = split_at`. -/
def Internal.splitAndInsert (bt : BTree K V) (nd : Internal K) (key : K)
    (page : Nat) (i : Nat) : Option ((Option (K × Nat) × Option V) × BTree K V) :=
  let pn := (bt.nextPageNr).1
  let bt1 := (bt.nextPageNr).2
  match nd.split pn bt1.splitAt with
  | none => none
  | some (splitKey, selfL, newNode) =>
    if i < bt1.splitAt then
      match selfL.insertAt i key page with
      | none => none
      | some selfL1 =>
        some ((some (splitKey, pn), none),
          (bt1.storeNode (.internal selfL1)).storeNode (.internal newNode))
    else
      match usizeSub (i - bt1.splitAt) 1 with
      | none => none
      | some j =>
        match newNode.insertAt j key page with
        | none => none
        | some newNode1 =>
          some ((some (splitKey, pn), none),
            (bt1.storeNode (.internal selfL)).storeNode (.internal newNode1))

/-- `BTNode::set` together with the recursive `Internal::set`
(lines 248-282 and 510-516), with fuel bounding the descent depth. -/
def setGo : Nat → BTree K V → BTNode K V → K → V →
    Option ((Option (K × Nat) × Option V) × BTree K V)
  | 0, _, _, _, _ => none
  | _ + 1, bt, .leaf lf, key, value => Leaf.set bt lf key value
  | fuel + 1, bt, .internal self, key, value =>
    match self.get key with
    | none => none
    | some nextPage =>
      match bt.loadNode nextPage with
      | none => none
      | some child =>
        match setGo fuel bt child key value with
        | none => none
        | some ((none, v), bt1) => some ((none, v), bt1)
        | some ((some (key1, page1), _), bt1) =>
          match binarySearch self.keys key1 with
          | .inl _ => none
          | .inr i =>
            if self.isFull bt1.maxKeyCount then
              Internal.splitAndInsert bt1 self key1 page1 i
            else
              match self.insertAt i key1 page1 with
              | none => none
              | some self1 => some ((none, none), bt1.storeNode (.internal self1))

/-- `Internal::get_child_node_info` (lines 284-307), with every Rust
indexing and `usize` subtraction guarded. -/
def Internal.getChildNodeInfo (self : Internal K) (key : K) :
    Option ChildNodeInfo :=
  match binarySearch self.keys key with
  | .inl i =>
    if self.entries.length < 2 then none
    else
      match self.entries[i + 1]?, self.entries[i]? with
      | some p, some ls =>
        some { pageNr := p
             , lparent := if i < self.keys.length - 1 then some (i + 1) else none
             , rparent := some i
             , lsibling := some ls
             , rsibling := if i < self.entries.length - 2 then self.entries[i + 2]? else none }
      | _, _ => none
  | .inr i =>
    if self.entries.length < 1 then none
    else
      match self.entries[i]? with
      | none => none
      | some p =>
        some { pageNr := p
             , lparent := some i
             , rparent := if 0 < i then some (i - 1) else none
             , lsibling := if 0 < i then self.entries[i - 1]? else none
             , rsibling := if i < self.entries.length - 1 then self.entries[i + 1]? else none }

/-- The merge phase of `Leaf::remove` (lines 123-144): merge into the
left sibling when one exists, else merge the right sibling into self.
Returns the surviving leaf (stored later by the caller), the reclaimed
page and the updated store. -/
def Leaf.mergePhase (bt : BTree K V) (self1 : Leaf K V) (pinfo : ChildNodeInfo) :
    Option (Leaf K V × Option Nat × BTree K V) :=
  match pinfo.lsibling with
  | some ls =>
    match bt.loadNode ls with
    | some (.leaf node) =>
      some (⟨node.pageNr, node.keys ++ self1.keys, node.entries ++ self1.entries, self1.next⟩,
        some self1.pageNr, bt.onPageDeleted self1.pageNr)
    | _ => none
  | none =>
    match pinfo.rsibling with
    | none => none
    | some rs =>
      if pinfo.rsibling = self1.next then
        match bt.loadNode rs with
        | some (.leaf rightNode) =>
          some (⟨self1.pageNr, self1.keys ++ rightNode.keys,
                 self1.entries ++ rightNode.entries, rightNode.next⟩,
            some rightNode.pageNr, bt.onPageDeleted rightNode.pageNr)
        | _ => none
      else none

/-- The right-transfer attempt of `Leaf::remove` (lines 110-122),
falling through to the merge phase when it does not apply. -/
def Leaf.rightPhase (bt : BTree K V) (self1 : Leaf K V) (par : Internal K)
    (pinfo : ChildNodeInfo) : Option (Leaf K V × Option Nat × Internal K × BTree K V) :=
  match pinfo.rsibling with
  | some rs =>
    match bt.loadNode rs with
    | some (.leaf node) =>
      if bt.splitAt < node.keys.length then
        match vecRemoveAt node.keys 0, vecRemoveAt node.entries 0 with
        | some (k, keys1), some (v, entries1) =>
          let node1 : Leaf K V := ⟨node.pageNr, keys1, entries1, node.next⟩
          match pinfo.lparent with
          | none => none
          | some lp =>
            match keys1[0]? with
            | none => none
            | some newFirst =>
              if lp < par.keys.length then
                some (⟨self1.pageNr, self1.keys ++ [k], self1.entries ++ [v], self1.next⟩,
                  none, ⟨par.pageNr, par.keys.set lp newFirst, par.entries⟩,
                  bt.storeNode (.leaf node1))
              else none
        | _, _ => none
      else
        (Leaf.mergePhase bt self1 pinfo).map (fun r => (r.1, r.2.1, par, r.2.2))
    | _ => none
  | none =>
    (Leaf.mergePhase bt self1 pinfo).map (fun r => (r.1, r.2.1, par, r.2.2))

/-- The rebalance of `Leaf::remove` (lines 96-144): try a left transfer,
then a right transfer, then merge. -/
def Leaf.rebalance (bt : BTree K V) (self1 : Leaf K V) (par : Internal K)
    (pinfo : ChildNodeInfo) : Option (Leaf K V × Option Nat × Internal K × BTree K V) :=
  match pinfo.lsibling with
  | some ls =>
    match bt.loadNode ls with
    | some (.leaf node) =>
      if bt.splitAt < node.keys.length then
        match node.keys.getLast?, node.entries.getLast? with
        | some k, some v =>
          let node1 : Leaf K V := ⟨node.pageNr, node.keys.dropLast, node.entries.dropLast, node.next⟩
          match pinfo.rparent with
          | none => none
          | some rp =>
            if rp < par.keys.length then
              some (⟨self1.pageNr, k :: self1.keys, v :: self1.entries, self1.next⟩,
                none, ⟨par.pageNr, par.keys.set rp k, par.entries⟩,
                bt.storeNode (.leaf node1))
            else none
        | _, _ => none
      else Leaf.rightPhase bt self1 par pinfo
    | _ => none
  | none => Leaf.rightPhase bt self1 par pinfo

/-- `Leaf::remove` (lines 79-150).  Returns the pair
`(original_value, reclaimed_page)`, the possibly updated parent (the
Rust code mutates it through `&mut`), and the updated store. -/
def Leaf.remove (bt : BTree K V) (lf : Leaf K V) (key : K)
    (parent : Option (Internal K)) (pathInfo : Option ChildNodeInfo) :
    Option ((Option V × Option Nat) × Option (Internal K) × BTree K V) :=
  match binarySearch lf.keys key with
  | .inr _ => some ((none, none), parent, bt)
  | .inl i =>
    match vecRemoveAt lf.keys i, vecRemoveAt lf.entries i with
    | some (_, keys1), some (originalValue, entries1) =>
      let self1 : Leaf K V := ⟨lf.pageNr, keys1, entries1, lf.next⟩
      if keys1.length < bt.splitAt then
        match parent, pathInfo with
        | some par, some pinfo =>
          match Leaf.rebalance bt self1 par pinfo with
          | none => none
          | some (self2, deleted, par1, bt1) =>
            some ((some originalValue, deleted), some par1, bt1.storeNode (.leaf self2))
        | some _, none => none
        | none, _ => some ((some originalValue, none), parent, bt.storeNode (.leaf self1))
      else
        some ((some originalValue, none), parent, bt.storeNode (.leaf self1))
    | _, _ => none

/-- The merge phase of `Internal::remove_page` (lines 400-420): merges
pull the separator key down from the parent; if neither sibling exists
nothing happens. -/
def Internal.mergePhase (bt : BTree K V) (self1 : Internal K) (par : Internal K)
    (pinfo : ChildNodeInfo) : Option (Internal K × Option Nat × Internal K × BTree K V) :=
  match pinfo.lsibling with
  | some ls =>
    match bt.loadNode ls with
    | some (.internal node) =>
      match pinfo.rparent with
      | none => none
      | some rp =>
        match par.keys[rp]? with
        | none => none
        | some sep =>
          some (⟨node.pageNr, node.keys ++ [sep] ++ self1.keys, node.entries ++ self1.entries⟩,
            some self1.pageNr, par, bt.onPageDeleted self1.pageNr)
    | _ => none
  | none =>
    match pinfo.rsibling with
    | none => some (self1, none, par, bt)
    | some rs =>
      match bt.loadNode rs with
      | some (.internal node) =>
        match pinfo.lparent with
        | none => none
        | some lp =>
          match par.keys[lp]? with
          | none => none
          | some sep =>
            some (⟨self1.pageNr, self1.keys ++ [sep] ++ node.keys, self1.entries ++ node.entries⟩,
              some node.pageNr, par, bt.onPageDeleted node.pageNr)
      | _ => none

/-- The right-transfer attempt of `Internal::remove_page`
(lines 386-398), falling through to the merge phase. -/
def Internal.rightPhase (bt : BTree K V) (self1 : Internal K) (par : Internal K)
    (pinfo : ChildNodeInfo) : Option (Internal K × Option Nat × Internal K × BTree K V) :=
  match pinfo.rsibling with
  | some rs =>
    match bt.loadNode rs with
    | some (.internal node) =>
      if bt.splitAt < node.keys.length then
        match vecRemoveAt node.keys 0, vecRemoveAt node.entries 0 with
        | some (k, keys1), some (v, entries1) =>
          let node1 : Internal K := ⟨node.pageNr, keys1, entries1⟩
          match pinfo.lparent with
          | none => none
          | some lp =>
            match keys1[0]? with
            | none => none
            | some newFirst =>
              if lp < par.keys.length then
                some (⟨self1.pageNr, self1.keys ++ [k], self1.entries ++ [v]⟩,
                  none, ⟨par.pageNr, par.keys.set lp newFirst, par.entries⟩,
                  bt.storeNode (.internal node1))
              else none
        | _, _ => none
      else Internal.mergePhase bt self1 par pinfo
    | _ => none
  | none => Internal.mergePhase bt self1 par pinfo

/-- The rebalance of `Internal::remove_page` (lines 369-421). -/
def Internal.rebalance (bt : BTree K V) (self1 : Internal K) (par : Internal K)
    (pinfo : ChildNodeInfo) : Option (Internal K × Option Nat × Internal K × BTree K V) :=
  match pinfo.lsibling with
  | some ls =>
    match bt.loadNode ls with
    | some (.internal node) =>
      if bt.splitAt < node.keys.length then
        match node.keys.getLast?, node.entries.getLast? with
        | some k, some v =>
          let node1 : Internal K := ⟨node.pageNr, node.keys.dropLast, node.entries.dropLast⟩
          match pinfo.rparent with
          | none => none
          | some rp =>
            if rp < par.keys.length then
              some (⟨self1.pageNr, k :: self1.keys, v :: self1.entries⟩,
                none, ⟨par.pageNr, par.keys.set rp k, par.entries⟩,
                bt.storeNode (.internal node1))
            else none
        | _, _ => none
      else Internal.rightPhase bt self1 par pinfo
    | _ => none
  | none => Internal.rightPhase bt self1 par pinfo

/-- `Internal::remove_page` (lines 336-428).  The reclaimed page is
located by `self.entries.binary_search(&page_nr)`; a miss is the Rust
panic.  Removes `keys[i - 1]` and `entries[i]`; at the root with the
key array emptied, the tree root is reassigned to `entries[0]` and the
root page reclaimed; otherwise, when underfull and not the root, the
four-step rebalance runs.  Returns the freshly reclaimed page, the
updated self, the updated parent, and the store. -/
def Internal.removePage (bt : BTree K V) (self : Internal K) (pageNr : Nat)
    (parent : Option (Internal K)) (pathInfo : Option ChildNodeInfo) :
    Option (Option Nat × Internal K × Option (Internal K) × BTree K V) :=
  match binarySearch self.entries pageNr with
  | .inr _ => none
  | .inl i =>
    match usizeSub i 1 with
    | none => none
    | some i1 =>
      match vecRemoveAt self.keys i1, vecRemoveAt self.entries i with
      | some (_, keys1), some (_, entries1) =>
        let self1 : Internal K := ⟨self.pageNr, keys1, entries1⟩
        match parent with
        | none =>
          if keys1.length = 0 then
            match entries1[0]? with
            | none => none
            | some newRoot =>
              some (some self.pageNr, self1, none,
                ({ bt with rootPageNr := newRoot }).onPageDeleted self.pageNr)
          else
            some (none, self1, none, bt)
        | some par =>
          if keys1.length < bt.splitAt then
            match pathInfo with
            | none => none
            | some pinfo =>
              match Internal.rebalance bt self1 par pinfo with
              | none => none
              | some (self2, deleted, par1, bt1) =>
                some (deleted, self2, some par1, bt1)
          else
            some (none, self1, some par, bt)
      | _, _ => none

/-- `BTNode::remove` together with the recursive `Internal::remove`
(lines 309-334 and 518-525), with fuel bounding the descent depth. -/
def removeGo : Nat → BTree K V → BTNode K V → K → Option (Internal K) →
    Option ChildNodeInfo →
    Option ((Option V × Option Nat) × Option (Internal K) × BTree K V)
  | 0, _, _, _, _, _ => none
  | _ + 1, bt, .leaf lf, key, parent, pathInfo => Leaf.remove bt lf key parent pathInfo
  | fuel + 1, bt, .internal self, key, parent, pathInfo =>
    match self.getChildNodeInfo key with
    | none => none
    | some childInfo =>
      match bt.loadNode childInfo.pageNr with
      | none => none
      | some child =>
        match removeGo fuel bt child key (some self) (some childInfo) with
        | none => none
        | some ((originalValue, deletedPage), parentOut, bt1) =>
          match parentOut with
          | none => none
          | some self1 =>
            match deletedPage with
            | none =>
              some ((originalValue, none), parent, bt1.storeNode (.internal self1))
            | some p =>
              match Internal.removePage bt1 self1 p parent pathInfo with
              | none => none
              | some (deleted2, self2, parent2, bt2) =>
                some ((originalValue, deleted2), parent2, bt2.storeNode (.internal self2))

/-- `BTNode::get` descent loop (node.rs lines 494-508). -/
def getGo : Nat → BTree K V → Nat → K → Option (Option V)
  | 0, _, _, _ => none
  | fuel + 1, bt, pageNr, key =>
    match bt.loadNode pageNr with
    | none => none
    | some (.leaf lf) => lf.get key
    | some (.internal nd) =>
      match nd.get key with
      | none => none
      | some p => getGo fuel bt p key

/-- Modelled from the spec: the coordinator `open` with a
`max_key_count` override (spec sections 3 and 4.6; the coordinator that
node.rs's tests call is not under src/).  `split_at` is
`ceil(max_key_count / 2)`. -/
def BTree.openFresh (K V : Type) (maxKeyCount : Nat) : BTree K V :=
  { pages := [], rootPageNr := 0, nodeCount := 0, entryCount := 0,
    freePages := [], maxKeyCount := maxKeyCount,
    splitAt := maxKeyCount / 2 + maxKeyCount % 2 }

/-- `len()` (spec section 4.6). -/
def BTree.len (bt : BTree K V) : Nat := bt.entryCount

/-- Modelled from the spec: coordinator `get` (spec section 4.6, and the
older iteration in src/src/lib.rs lines 267-296): empty tree gives
`None`, else descend from the root. -/
def BTree.get (fuel : Nat) (bt : BTree K V) (key : K) : Option (Option V) :=
  if bt.entryCount = 0 then some none
  else getGo fuel bt bt.rootPageNr key

/-- Modelled from the spec: coordinator `set` (spec section 4.6): on an
empty tree allocate a page and store a one-entry root leaf; otherwise
descend, and on a propagated split allocate a new internal root holding
`[split_key]` over `[old_root, new_page]`; `entry_count` is incremented
iff no prior value was replaced. -/
def BTree.set (fuel : Nat) (bt : BTree K V) (key : K) (value : V) :
    Option (Option V × BTree K V) :=
  if bt.entryCount = 0 then
    let pn := (bt.nextPageNr).1
    let bt1 := (bt.nextPageNr).2
    let bt2 := { bt1 with rootPageNr := pn, entryCount := bt1.entryCount + 1 }
    some (none, bt2.storeNode (.leaf ⟨pn, [key], [value], none⟩))
  else
    match bt.loadNode bt.rootPageNr with
    | none => none
    | some root =>
      match setGo fuel bt root key value with
      | none => none
      | some ((splitInfo, prev), bt1) =>
        let bt2 :=
          match splitInfo with
          | none => bt1
          | some (splitKey, newPage) =>
            let rp := (bt1.nextPageNr).1
            let bt3 := (bt1.nextPageNr).2
            ({ bt3 with rootPageNr := rp }).storeNode
              (.internal ⟨rp, [splitKey], [bt1.rootPageNr, newPage]⟩)
        some (prev, if prev.isNone then { bt2 with entryCount := bt2.entryCount + 1 } else bt2)

/-- Modelled from the spec: coordinator `remove` (spec section 4.6):
empty tree gives `None`; otherwise the nodes do the work and
`entry_count` is decremented iff a value was returned. -/
def BTree.remove (fuel : Nat) (bt : BTree K V) (key : K) :
    Option (Option V × BTree K V) :=
  if bt.entryCount = 0 then some (none, bt)
  else
    match bt.loadNode bt.rootPageNr with
    | none => none
    | some root =>
      match removeGo fuel bt root key none none with
      | none => none
      | some ((originalValue, _), _, bt1) =>
        some (originalValue,
          if originalValue.isSome then { bt1 with entryCount := bt1.entryCount - 1 } else bt1)

/-- The leaf chain walk of `keys()` / `values()` (spec section 4.6 and
`BTNode::dump_leafs`, node.rs lines 624-632): start at page 0, emit the
leaf's keys, follow `next` until `None`. -/
def chainKeysGo : Nat → BTree K V → Option Nat → Option (List K)
  | _, _, none => some []
  | 0, _, some _ => none
  | fuel + 1, bt, some p =>
    match bt.loadNode p with
    | some (.leaf lf) => (chainKeysGo fuel bt lf.next).map (fun rest => lf.keys ++ rest)
    | _ => none

/-- `keys()`: the leaf-chain iterator, starting at page 0. -/
def BTree.chainKeys (fuel : Nat) (bt : BTree K V) : Option (List K) :=
  chainKeysGo fuel bt (some 0)

/-- A top-level operation: `set` or `remove`. -/
inductive Op (K V : Type) where
  | set : K → V → Op K V
  | remove : K → Op K V
deriving Repr, DecidableEq

/-- Run a sequence of operations; `none` when any operation panics or
fails. -/
def runOps (fuel : Nat) : List (Op K V) → BTree K V → Option (BTree K V)
  | [], bt => some bt
  | .set k v :: rest, bt =>
    match BTree.set fuel bt k v with
    | none => none
    | some (_, bt1) => runOps fuel rest bt1
  | .remove k :: rest, bt =>
    match BTree.remove fuel bt k with
    | none => none
    | some (_, bt1) => runOps fuel rest bt1

/-- The in-memory sorted-map reference model: a strictly sorted
association list. -/
def modelSet : List (K × V) → K → V → List (K × V)
  | [], k, v => [(k, v)]
  | (k0, v0) :: tl, k, v =>
    if k < k0 then (k, v) :: (k0, v0) :: tl
    else if k = k0 then (k, v) :: tl
    else (k0, v0) :: modelSet tl k v

def modelRemove : List (K × V) → K → List (K × V)
  | [], _ => []
  | (k0, v0) :: tl, k =>
    if k = k0 then tl else (k0, v0) :: modelRemove tl k

def modelGet (m : List (K × V)) (k : K) : Option V :=
  match m with
  | [] => none
  | (k0, v0) :: tl => if k = k0 then some v0 else modelGet tl k

/-- Run the same operation sequence on the reference model. -/
def runModel : List (Op K V) → List (K × V) → List (K × V)
  | [], m => m
  | .set k v :: rest, m => runModel rest (modelSet m k v)
  | .remove k :: rest, m => runModel rest (modelRemove m k)

/-- Collect the nodes reachable from a list of pages (preorder), with
fuel.  Used by the executable invariant checkers. -/
def collectFrom : Nat → BTree K V → List Nat → Option (List (BTNode K V))
  | 0, _, _ => none
  | _ + 1, _, [] => some []
  | fuel + 1, bt, p :: ps =>
    match bt.loadNode p with
    | none => none
    | some nd =>
      let childPages := match nd with
        | .internal inn => inn.entries
        | .leaf _ => []
      match collectFrom fuel bt childPages with
      | none => none
      | some sub =>
        match collectFrom fuel bt ps with
        | none => none
        | some rest => some (nd :: sub ++ rest)

/-- All nodes reachable from the root. -/
def BTree.allNodes (fuel : Nat) (bt : BTree K V) : Option (List (BTNode K V)) :=
  collectFrom fuel bt [bt.rootPageNr]

/-- First key of the leftmost leaf reachable from a page. -/
def leftmostFirstKey : Nat → BTree K V → Nat → Option K
  | 0, _, _ => none
  | fuel + 1, bt, p =>
    match bt.loadNode p with
    | some (.leaf lf) => lf.keys[0]?
    | some (.internal nd) =>
      match nd.entries[0]? with
      | none => none
      | some c => leftmostFirstKey fuel bt c
    | none => none

/-- The separator-key invariant for one internal node: for every index
`i`, the first key of the leftmost leaf reachable via `children[i+1]`
equals `keys[i]`. -/
def sepOkNode (fuel : Nat) (bt : BTree K V) (nd : Internal K) : Bool :=
  (List.range nd.keys.length).all (fun i =>
    match nd.entries[i + 1]?, nd.keys[i]? with
    | some c, some k => leftmostFirstKey fuel bt c = some k
    | _, _ => false)

/-- Checker for the separator-key invariant over every reachable
internal node. -/
def BTree.sepInvariantCheck (fuel : Nat) (bt : BTree K V) : Bool :=
  match bt.allNodes fuel with
  | none => false
  | some nodes =>
    nodes.all (fun nd =>
      match nd with
      | .internal inn => sepOkNode fuel bt inn
      | .leaf _ => true)

/-- Checker for the occupancy invariant: every reachable non-root node
has between `split_at - 1` and `max_key_count` keys. -/
def BTree.occupancyCheck (fuel : Nat) (bt : BTree K V) : Bool :=
  match bt.allNodes fuel with
  | none => false
  | some nodes =>
    nodes.all (fun nd =>
      if nd.pageNr = bt.rootPageNr then true
      else
        let n := match nd with
          | .internal inn => inn.keys.length
          | .leaf lf => lf.keys.length
        decide (bt.splitAt - 1 ≤ n ∧ n ≤ bt.maxKeyCount))

/-- Executable strict-ascending check on a list. -/
def strictAsc : List Nat → Bool
  | [] => true
  | [_] => true
  | a :: b :: tl => decide (a < b) && strictAsc (b :: tl)

/-- Checker: every reachable internal node's children array is in
strictly ascending page-number order. -/
def BTree.childrenSortedCheck (fuel : Nat) (bt : BTree K V) : Bool :=
  match bt.allNodes fuel with
  | none => false
  | some nodes =>
    nodes.all (fun nd =>
      match nd with
      | .internal inn => strictAsc inn.entries
      | .leaf _ => true)

/-- Operation sequence exercising a leaf split whose new key has
insertion index exactly `split_at` (max_key_count 4). -/
def c1ops : List (Op Nat Nat) :=
  [.set 10 100, .set 20 200, .set 30 300, .set 40 400, .set 25 250]

/-- Like `c1ops` with different keys, for the separator-invariant
check. -/
def c4ops : List (Op Nat Nat) :=
  [.set 100 1, .set 200 2, .set 300 3, .set 400 4, .set 250 5]

/-- Operation sequence (max_key_count 3) that splits a full root whose
propagated key lands left of `split_at`, leaving a right internal node
with zero keys. -/
def c5ops : List (Op Nat Nat) :=
  [.set 10 1, .set 20 2, .set 30 3, .set 40 4, .set 50 5, .set 60 6,
   .set 70 7, .set 80 8, .set 5 9, .set 2 10]

/-- `c1ops` followed by a second insert of the now-invisible key. -/
def c8ops : List (Op Nat Nat) :=
  [.set 10 100, .set 20 200, .set 30 300, .set 40 400, .set 25 111, .set 25 222]

/-- Four inserts filling a leaf, then an insert at index `split_at`. -/
def c9pre : List (Op Nat Nat) :=
  [.set 10 100, .set 20 200, .set 30 300, .set 40 400, .set 25 111]

/-- Operation sequence (max_key_count 4) producing an internal node
whose children pages are `[0, 3, 1]`, then removals driving a merge
below it. -/
def c10pre : List (Op Nat Nat) :=
  [.set 10 100, .set 20 200, .set 30 300, .set 40 400, .set 50 500,
   .set 5 50, .set 15 150, .set 17 170, .remove 50, .remove 40]


section BinarySearchLemmas

variable {K : Type} [LinearOrder K]

/-- In a strictly sorted list, the element at index `i` is below `key`
iff `i` is below the number of elements below `key` (the sorted
insertion point). -/
theorem countP_lt_boundary (xs : List K) (key : K) (hs : xs.Sorted (· < ·)) :
    ∀ i x, xs[i]? = some x →
      (x < key ↔ i < xs.countP (fun y => decide (y < key))) := by
  induction xs with
  | nil => intro i x h; simp at h
  | cons a tl ih =>
    rw [List.sorted_cons] at hs
    intro i x h
    have hcnt0 : ¬ a < key → List.countP (fun y => decide (y < key)) tl = 0 := by
      intro ha
      rw [List.countP_eq_zero]
      intro b hb
      simp only [decide_eq_true_eq]
      intro hbk
      exact ha (lt_trans (hs.1 b hb) hbk)
    rcases i with _ | i
    · rw [List.getElem?_cons_zero] at h
      have hxa : x = a := by injection h with h; exact h.symm
      rw [hxa, List.countP_cons]
      rcases Decidable.em (a < key) with ha | ha
      · have hd : decide (a < key) = true := by simpa using ha
        simp only [hd, if_true]
        exact ⟨fun _ => by omega, fun _ => ha⟩
      · have hd : decide (a < key) = false := by simpa using ha
        rw [hcnt0 ha]
        simp [hd, ha]
    · rw [List.getElem?_cons_succ] at h
      have hiff := ih hs.2 i x h
      rw [List.countP_cons]
      rcases Decidable.em (a < key) with ha | ha
      · have hd : decide (a < key) = true := by simpa using ha
        simp only [hd, if_true]
        rw [hiff]
        omega
      · have hd : decide (a < key) = false := by simpa using ha
        have hmem : x ∈ tl := List.getElem?_mem h
        have hxk : ¬ x < key := fun hc => ha (lt_trans (hs.1 x hmem) hc)
        rw [hcnt0 ha]
        simp [hd, hxk]

theorem bsGo_absent (xs : List K) (key : K) (hs : xs.Sorted (· < ·))
    (habs : key ∉ xs) :
    ∀ fuel left right,
      left ≤ xs.countP (fun y => decide (y < key)) →
      xs.countP (fun y => decide (y < key)) ≤ right →
      right ≤ xs.length → right - left ≤ fuel →
      bsGo xs key fuel left right = Sum.inr (xs.countP (fun y => decide (y < key))) := by
  intro fuel
  induction fuel with
  | zero =>
    intro left right h1 h2 h3 h4
    have : left = xs.countP (fun y => decide (y < key)) := by omega
    simp [bsGo, this]
  | succ fuel ih =>
    intro left right h1 h2 h3 h4
    rw [bsGo]
    by_cases hlr : left < right
    · rw [if_pos hlr]
      have hmid : left + (right - left) / 2 < right := by
        have : (right - left) / 2 < right - left := Nat.div_lt_self (by omega) (by omega)
        omega
      have hmidlen : left + (right - left) / 2 < xs.length := by omega
      have hget : xs[left + (right - left) / 2]? = some xs[left + (right - left) / 2] :=
        List.getElem?_eq_getElem hmidlen
      have hgd : xs.getD (left + (right - left) / 2) key = xs[left + (right - left) / 2] :=
        List.getD_eq_getElem xs key hmidlen
      rcases lt_trichotomy xs[left + (right - left) / 2] key with hc | hc | hc
      · rw [if_pos (by rw [hgd]; exact hc)]
        have hb := (countP_lt_boundary xs key hs _ _ hget).mp hc
        exact ih _ _ (by omega) h2 h3 (by omega)
      · exact absurd (hc ▸ List.getElem?_mem hget) habs
      · rw [if_neg (by rw [hgd]; exact not_lt_of_gt hc), if_pos (by rw [hgd]; exact hc)]
        have hb : ¬ (left + (right - left) / 2 < xs.countP (fun y => decide (y < key))) := by
          rw [← countP_lt_boundary xs key hs _ _ hget]
          exact not_lt_of_gt hc
        exact ih _ _ h1 (by omega) (by omega) (by omega)
    · rw [if_neg hlr]
      have : left = xs.countP (fun y => decide (y < key)) := by omega
      rw [this]

/-- On a strictly sorted list without the key, Rust binary search
returns `Err` at the sorted insertion point. -/
theorem binarySearch_absent (xs : List K) (key : K) (hs : xs.Sorted (· < ·))
    (habs : key ∉ xs) :
    binarySearch xs key = Sum.inr (xs.countP (fun y => decide (y < key))) := by
  have hle := List.countP_le_length (l := xs) (p := fun y => decide (y < key))
  exact bsGo_absent xs key hs habs (xs.length + 1) 0 xs.length (by omega) hle le_rfl (by omega)

theorem bsGo_found (xs : List K) (key : K) (hs : xs.Sorted (· < ·))
    (j : Nat) (hj : xs[j]? = some key) :
    ∀ fuel left right,
      left ≤ j → j < right → right ≤ xs.length → right - left ≤ fuel →
      bsGo xs key fuel left right = Sum.inl j := by
  have hjlen : j < xs.length := (List.getElem?_eq_some.mp hj).1
  have hjget : xs[j] = key := by
    have h2 := List.getElem?_eq_getElem hjlen
    rw [h2] at hj
    injection hj
  intro fuel
  induction fuel with
  | zero => intro left right h1 h2 h3 h4; omega
  | succ fuel ih =>
    intro left right h1 h2 h3 h4
    rw [bsGo]
    have hlr : left < right := by omega
    rw [if_pos hlr]
    have hmid : left + (right - left) / 2 < right := by
      have : (right - left) / 2 < right - left := Nat.div_lt_self (by omega) (by omega)
      omega
    have hmidlen : left + (right - left) / 2 < xs.length := by omega
    have hgd : xs.getD (left + (right - left) / 2) key = xs[left + (right - left) / 2] :=
      List.getD_eq_getElem xs key hmidlen
    have hsm := hs.get_strictMono
    rcases lt_trichotomy xs[left + (right - left) / 2] key with hc | hc | hc
    · rw [if_pos (by rw [hgd]; exact hc)]
      have hlt : left + (right - left) / 2 < j := by
        by_contra hge
        rcases eq_or_lt_of_le (show j ≤ left + (right - left) / 2 by omega) with he | hl
        · have hq : xs[j]? = xs[left + (right - left) / 2]? := by rw [he]
          rw [hj, List.getElem?_eq_getElem hmidlen] at hq
          injection hq with hq
          rw [← hq] at hc
          exact lt_irrefl key hc
        · have hmono := hsm (a := ⟨j, hjlen⟩) (b := ⟨left + (right - left) / 2, hmidlen⟩) hl
          simp only [List.get_eq_getElem] at hmono
          rw [hjget] at hmono
          exact absurd (lt_trans hmono hc) (lt_irrefl key)
      exact ih _ _ (by omega) h2 h3 (by omega)
    · rw [if_neg (by rw [hgd, hc]; exact lt_irrefl key),
          if_neg (by rw [hgd, hc]; exact lt_irrefl key)]
      have hfin : (⟨left + (right - left) / 2, hmidlen⟩ : Fin xs.length) = ⟨j, hjlen⟩ := by
        apply hsm.injective
        simp only [List.get_eq_getElem]
        rw [hc, hjget]
      have : left + (right - left) / 2 = j := congrArg Fin.val hfin
      rw [this]
    · rw [if_neg (by rw [hgd]; exact not_lt_of_gt hc), if_pos (by rw [hgd]; exact hc)]
      have hgt : j < left + (right - left) / 2 := by
        by_contra hge
        rcases eq_or_lt_of_le (show left + (right - left) / 2 ≤ j by omega) with he | hl
        · have hq : xs[j]? = xs[left + (right - left) / 2]? := by rw [he]
          rw [hj, List.getElem?_eq_getElem hmidlen] at hq
          injection hq with hq
          rw [← hq] at hc
          exact lt_irrefl key hc
        · have hmono := hsm (a := ⟨left + (right - left) / 2, hmidlen⟩) (b := ⟨j, hjlen⟩) hl
          simp only [List.get_eq_getElem] at hmono
          rw [hjget] at hmono
          exact absurd (lt_trans hc hmono) (lt_irrefl key)
      exact ih _ _ h1 (by omega) (by omega) (by omega)

/-- On a strictly sorted list containing the key at index `j`, Rust
binary search returns `Ok j`. -/
theorem binarySearch_found (xs : List K) (key : K) (hs : xs.Sorted (· < ·))
    (j : Nat) (hj : xs[j]? = some key) :
    binarySearch xs key = Sum.inl j := by
  have hjlen : j < xs.length := (List.getElem?_eq_some.mp hj).1
  exact bsGo_found xs key hs j hj (xs.length + 1) 0 xs.length (by omega) hjlen le_rfl (by omega)


end BinarySearchLemmas


/-- Claim C1: for every sequence of set and remove calls from a fresh
tree, get matches the in-memory sorted-map reference.  The code
diverges: with max_key_count 4, after set 10, 20, 30, 40 and then
set 25 (whose sorted insertion index equals split_at), the leaf split
places 25 in the new right leaf while promoting separator 30, so
routing sends get 25 to the left leaf; the engine returns None while
the reference map returns Some 250. -/
theorem c1_get_diverges_from_model :
    ((runOps 20 c1ops (BTree.openFresh Nat Nat 4)).bind fun st => BTree.get 20 st 25)
      = some none
    ∧ modelGet (runModel c1ops []) 25 = some 250 := ⟨rfl, rfl⟩

/-- Claim C3 counterexample: the claim quantifies over propagated
insertion index j ≥ split_at, but at j = split_at the Rust usize
computation `j - split_at - 1` underflows and the insert panics
(`none`) instead of inserting into the new right internal node. -/
theorem c3_right_insert_panics_at_exact_splitAt :
    (BTree.openFresh Nat Nat 4).splitAt = 2
    ∧ Internal.splitAndInsert (V := Nat) (BTree.openFresh Nat Nat 4)
        ⟨2, [30, 50, 70, 90], [0, 1, 3, 4, 5]⟩ 54 9 2 = none := ⟨rfl, rfl⟩

/-- Claim C4 counterexample: the separator-key invariant fails on a
reachable state.  After c4ops the root separator is 300 but the first
key of the leaf reached through children[1] is 250. -/
theorem c4_sep_invariant_violated :
    ((runOps 20 c4ops (BTree.openFresh Nat Nat 4)).map fun st => st.sepInvariantCheck 20)
      = some false
    ∧ ((runOps 20 c4ops (BTree.openFresh Nat Nat 4)).bind fun st => st.loadNode st.rootPageNr)
      = some (.internal ⟨2, [300], [0, 1]⟩)
    ∧ ((runOps 20 c4ops (BTree.openFresh Nat Nat 4)).bind fun st => st.loadNode 1)
      = some (.leaf ⟨1, [250, 300, 400], [5, 3, 4], none⟩) := ⟨rfl, rfl, rfl⟩

/-- Claim C5 counterexample: with max_key_count 3 (split_at 2) the
sequence c5ops leaves a reachable non-root internal node (page 6) with
zero keys, below the claimed lower bound split_at - 1 = 1. -/
theorem c5_occupancy_violated :
    ((runOps 20 c5ops (BTree.openFresh Nat Nat 3)).map fun st => st.occupancyCheck 20)
      = some false
    ∧ ((runOps 20 c5ops (BTree.openFresh Nat Nat 3)).bind fun st => st.loadNode 6)
      = some (.internal ⟨6, [], [4]⟩)
    ∧ (BTree.openFresh Nat Nat 3).splitAt = 2 := ⟨rfl, rfl, rfl⟩

/-- Claim C8: iterating the leaf chain should yield every live key
exactly once in strictly ascending order.  The code diverges: after
c8ops (two inserts of key 25, the second invisible to routing after the
mis-directed split), the chain holds 25 twice and is not strictly
ascending, while len() is 6. -/
theorem c8_chain_duplicate_key :
    ((runOps 20 c8ops (BTree.openFresh Nat Nat 4)).bind fun st => st.chainKeys 20)
      = some [10, 20, 25, 25, 30, 40]
    ∧ ((runOps 20 c8ops (BTree.openFresh Nat Nat 4)).map fun st => st.len) = some 6
    ∧ strictAsc [10, 20, 25, 25, 30, 40] = false
    ∧ ([10, 20, 25, 25, 30, 40] : List Nat).count 25 = 2 :=
  ⟨rfl, rfl, rfl, rfl⟩

/-- Claim C9: set(k, v1) then set(k, v2) should return Some v1 from the
second call and leave len() unchanged.  The code diverges: after c9pre
(ending with set 25 111, which lands in the right split half while the
separator promotes 30), the second set 25 222 routes to the left leaf,
finds 25 absent there, inserts a duplicate, returns None and bumps
len() from 5 to 6. -/
theorem c9_second_set_not_prev_value :
    ((runOps 20 c9pre (BTree.openFresh Nat Nat 4)).map fun st => st.len) = some 5
    ∧ ((runOps 20 c9pre (BTree.openFresh Nat Nat 4)).bind fun st =>
        (BTree.set 20 st 25 222).map fun r => (r.1, r.2.len)) = some (none, 6) := ⟨rfl, rfl⟩

/-- Claim C10 counterexample: after c10pre the reachable root internal
node has children pages [0, 3, 1], not in ascending order, and the next
remove (which merges a leaf below that node and hands the reclaimed
page to Internal::remove_page) panics because the binary search over
the unsorted children misses the present page. -/
theorem c10_children_unsorted_reachable :
    ((runOps 20 c10pre (BTree.openFresh Nat Nat 4)).bind fun st => st.loadNode st.rootPageNr)
      = some (.internal ⟨2, [15, 20], [0, 3, 1]⟩)
    ∧ strictAsc [0, 3, 1] = false
    ∧ ((runOps 20 c10pre (BTree.openFresh Nat Nat 4)).bind fun st => BTree.remove 20 st 30) = none :=
  ⟨rfl, rfl, rfl⟩

/-- Claim C10 amended: the reclaimed page is located by a binary search
over the children array, but reachable states have internal nodes with
non-ascending children; the search then misses page 1 although it is
present, so the panic branch is reachable. -/
theorem c10_search_misses_present_page :
    binarySearch ([0, 3, 1] : List Nat) 1 = Sum.inr 1
    ∧ (1 : Nat) ∈ ([0, 3, 1] : List Nat)
    ∧ ((runOps 20 c10pre (BTree.openFresh Nat Nat 4)).map fun st => st.childrenSortedCheck 20)
        = some false := ⟨rfl, by decide, rfl⟩


section LeafSplitSpec

variable {K V : Type} [LinearOrder K]

theorem vecInsert_eq_some {xs : List α} {i : Nat} (h : i ≤ xs.length) (a : α) :
    vecInsert xs i a = some (insListAt i a xs) := by
  simp [vecInsert, insListAt, h]

variable {K V : Type} [LinearOrder K]

/-- Characterization of `Leaf.set` on a full leaf not containing the
key (shared helper for the split-related claims). -/
theorem leaf_set_full_split_eq
    (bt : BTree K V) (lf : Leaf K V) (key : K) (value : V)
    (hsorted : lf.keys.Sorted (· < ·))
    (habs : key ∉ lf.keys)
    (hfull : bt.maxKeyCount ≤ lf.keys.length)
    (hsa : bt.splitAt < lf.keys.length)
    (hlen : lf.entries.length = lf.keys.length) :
    (lf.keys.countP (fun y => decide (y < key)) < bt.splitAt →
      Leaf.set bt lf key value =
        some ((some (lf.keys.getD bt.splitAt key, bt.nodeCount), none),
          (({ bt with nodeCount := bt.nodeCount + 1 }).storeNode
            (.leaf ⟨lf.pageNr,
              insListAt (lf.keys.countP (fun y => decide (y < key))) key (lf.keys.take bt.splitAt),
              insListAt (lf.keys.countP (fun y => decide (y < key))) value (lf.entries.take bt.splitAt),
              some bt.nodeCount⟩)).storeNode
            (.leaf ⟨bt.nodeCount, lf.keys.drop bt.splitAt, lf.entries.drop bt.splitAt, lf.next⟩)))
    ∧ (bt.splitAt ≤ lf.keys.countP (fun y => decide (y < key)) →
      Leaf.set bt lf key value =
        some ((some (lf.keys.getD bt.splitAt key, bt.nodeCount), none),
          (({ bt with nodeCount := bt.nodeCount + 1 }).storeNode
            (.leaf ⟨lf.pageNr, lf.keys.take bt.splitAt, lf.entries.take bt.splitAt,
              some bt.nodeCount⟩)).storeNode
            (.leaf ⟨bt.nodeCount,
              insListAt (lf.keys.countP (fun y => decide (y < key)) - bt.splitAt) key (lf.keys.drop bt.splitAt),
              insListAt (lf.keys.countP (fun y => decide (y < key)) - bt.splitAt) value (lf.entries.drop bt.splitAt),
              lf.next⟩))) := by
  have hbs := binarySearch_absent lf.keys key hsorted habs
  have hcle : lf.keys.countP (fun y => decide (y < key)) ≤ lf.keys.length :=
    List.countP_le_length _
  have hfull2 : lf.isFull bt.maxKeyCount = true := by
    simp [Leaf.isFull]; omega
  have hget : lf.keys[bt.splitAt]? = some (lf.keys.getD bt.splitAt key) := by
    rw [List.getD_eq_getElem lf.keys key hsa]
    exact List.getElem?_eq_getElem hsa
  have hsplit : lf.split bt.nodeCount bt.splitAt =
      some (lf.keys.getD bt.splitAt key,
        ⟨lf.pageNr, lf.keys.take bt.splitAt, lf.entries.take bt.splitAt, some bt.nodeCount⟩,
        ⟨bt.nodeCount, lf.keys.drop bt.splitAt, lf.entries.drop bt.splitAt, lf.next⟩) := by
    have h2 : bt.splitAt ≤ lf.entries.length := by omega
    rw [Leaf.split, hget]
    simp only []
    rw [if_pos h2]
  constructor
  · intro hi
    rw [Leaf.set, hbs]
    simp only [hfull2, if_true]
    rw [Leaf.splitAndInsert]
    simp only [BTree.nextPageNr, hsplit]
    rw [if_pos hi]
    rw [Leaf.insertAt]
    rw [vecInsert_eq_some (by simp [List.length_take]; omega) key,
        vecInsert_eq_some (by simp [List.length_take]; omega) value]
  · intro hi
    rw [Leaf.set, hbs]
    simp only [hfull2, if_true]
    rw [Leaf.splitAndInsert]
    simp only [BTree.nextPageNr, hsplit]
    rw [if_neg (by omega)]
    rw [Leaf.insertAt]
    rw [vecInsert_eq_some (by simp [List.length_drop]; omega) key,
        vecInsert_eq_some (by simp [List.length_drop]; omega) value]

/-- Claim C2: set on a full leaf not containing the key splits the leaf:
left keeps indices below split_at, the new right leaf takes the rest and
inherits the old next pointer, the left leaf's next becomes the new
page, the returned split key is the pre-split keys[split_at], and the
new pair goes left when its sorted index i is below split_at, else into
the right leaf at local index i - split_at. -/
theorem c2_leaf_set_full_split
    (bt : BTree K V) (lf : Leaf K V) (key : K) (value : V)
    (hsorted : lf.keys.Sorted (· < ·))
    (habs : key ∉ lf.keys)
    (hfull : bt.maxKeyCount ≤ lf.keys.length)
    (hsa : bt.splitAt < lf.keys.length)
    (hlen : lf.entries.length = lf.keys.length) :
    (lf.keys.countP (fun y => decide (y < key)) < bt.splitAt →
      Leaf.set bt lf key value =
        some ((some (lf.keys.getD bt.splitAt key, bt.nodeCount), none),
          (({ bt with nodeCount := bt.nodeCount + 1 }).storeNode
            (.leaf ⟨lf.pageNr,
              insListAt (lf.keys.countP (fun y => decide (y < key))) key (lf.keys.take bt.splitAt),
              insListAt (lf.keys.countP (fun y => decide (y < key))) value (lf.entries.take bt.splitAt),
              some bt.nodeCount⟩)).storeNode
            (.leaf ⟨bt.nodeCount, lf.keys.drop bt.splitAt, lf.entries.drop bt.splitAt, lf.next⟩)))
    ∧ (bt.splitAt ≤ lf.keys.countP (fun y => decide (y < key)) →
      Leaf.set bt lf key value =
        some ((some (lf.keys.getD bt.splitAt key, bt.nodeCount), none),
          (({ bt with nodeCount := bt.nodeCount + 1 }).storeNode
            (.leaf ⟨lf.pageNr, lf.keys.take bt.splitAt, lf.entries.take bt.splitAt,
              some bt.nodeCount⟩)).storeNode
            (.leaf ⟨bt.nodeCount,
              insListAt (lf.keys.countP (fun y => decide (y < key)) - bt.splitAt) key (lf.keys.drop bt.splitAt),
              insListAt (lf.keys.countP (fun y => decide (y < key)) - bt.splitAt) value (lf.entries.drop bt.splitAt),
              lf.next⟩))) :=
  leaf_set_full_split_eq bt lf key value hsorted habs hfull hsa hlen

/-- Claim C2 witness. -/
theorem c2_leaf_set_full_split_witness :
    Leaf.set (BTree.openFresh Nat Nat 4) ⟨0, [10, 20, 30, 40], [1, 2, 3, 4], none⟩ 25 9 =
      some ((some (30, 0), none),
        ((({ (BTree.openFresh Nat Nat 4) with nodeCount := 1 }).storeNode
          (.leaf ⟨0, [10, 20], [1, 2], some 0⟩)).storeNode
          (.leaf ⟨0, [25, 30, 40], [9, 3, 4], none⟩))) := by
  have h := (c2_leaf_set_full_split (BTree.openFresh Nat Nat 4)
    ⟨0, [10, 20, 30, 40], [1, 2, 3, 4], none⟩ 25 9
    (by decide) (by decide) (by decide) (by decide) (by decide)).2 (by decide)
  exact h


end LeafSplitSpec




section SepOccAmended

variable {K V : Type} [LinearOrder K]

theorem insListAt_head?_of_pos (m : Nat) (hm : 0 < m) (a : α) (xs : List α)
    (hxs : xs ≠ []) : (insListAt m a xs).head? = xs.head? := by
  cases xs with
  | nil => exact absurd rfl hxs
  | cons x tl =>
    cases m with
    | zero => omega
    | succ m => simp [insListAt]

theorem insListAt_zero_head? (a : α) (xs : List α) :
    (insListAt 0 a xs).head? = some a := by
  simp [insListAt]

/-- Claim C4 (amended): a leaf split during set promotes the pre-split
keys[split_at]; this equals the first key of the new right leaf
whenever the inserted key's sorted index differs from split_at, so
those splits establish the separator-key invariant; when the index is
exactly split_at the right leaf instead begins with the new key, which
is strictly below the promoted separator, and removals can leave stale
separators, so the invariant does not hold at every reachable state. -/
theorem c4_split_separator_amended
    (bt : BTree K V) (lf : Leaf K V) (key : K) (value : V)
    (hsorted : lf.keys.Sorted (· < ·))
    (habs : key ∉ lf.keys)
    (hfull : bt.maxKeyCount ≤ lf.keys.length)
    (hsa : bt.splitAt < lf.keys.length)
    (hlen : lf.entries.length = lf.keys.length) :
    ∃ leftLeaf rightLeaf : Leaf K V,
      Leaf.set bt lf key value =
        some ((some (lf.keys.getD bt.splitAt key, bt.nodeCount), none),
          (({ bt with nodeCount := bt.nodeCount + 1 }).storeNode
            (.leaf leftLeaf)).storeNode (.leaf rightLeaf)) ∧
      rightLeaf.pageNr = bt.nodeCount ∧
      leftLeaf.next = some bt.nodeCount ∧
      rightLeaf.next = lf.next ∧
      (lf.keys.countP (fun y => decide (y < key)) ≠ bt.splitAt →
        rightLeaf.keys.head? = some (lf.keys.getD bt.splitAt key)) ∧
      (lf.keys.countP (fun y => decide (y < key)) = bt.splitAt →
        rightLeaf.keys.head? = some key ∧ key < lf.keys.getD bt.splitAt key) := by
  have hdropne : lf.keys.drop bt.splitAt ≠ [] := by
    intro h
    have := congrArg List.length h
    simp [List.length_drop] at this
    omega
  have hdrophead : (lf.keys.drop bt.splitAt).head? = some (lf.keys.getD bt.splitAt key) := by
    rw [List.head?_drop]
    rw [List.getD_eq_getElem lf.keys key hsa]
    exact List.getElem?_eq_getElem hsa
  rcases Nat.lt_trichotomy (lf.keys.countP (fun y => decide (y < key))) bt.splitAt with hi | hi | hi
  · refine ⟨_, _, (leaf_set_full_split_eq bt lf key value hsorted habs hfull hsa hlen).1 hi,
      rfl, rfl, rfl, fun _ => ?_, fun he => absurd he (by omega)⟩
    exact hdrophead
  · refine ⟨_, _, (leaf_set_full_split_eq bt lf key value hsorted habs hfull hsa hlen).2 (by omega),
      rfl, rfl, rfl, fun hne => absurd hi hne, fun _ => ?_⟩
    constructor
    · rw [hi]
      simp only [Nat.sub_self]
      exact insListAt_zero_head? key _
    · have hksa : lf.keys[bt.splitAt]? = some (lf.keys.getD bt.splitAt key) := by
        rw [List.getD_eq_getElem lf.keys key hsa]
        exact List.getElem?_eq_getElem hsa
      have hnotlt : ¬ (lf.keys.getD bt.splitAt key < key) := by
        rw [countP_lt_boundary lf.keys key hsorted bt.splitAt _ hksa]
        omega
      have hne : lf.keys.getD bt.splitAt key ≠ key := by
        intro he
        apply habs
        rw [← he]
        exact List.getElem?_mem hksa
      rcases lt_trichotomy key (lf.keys.getD bt.splitAt key) with h | h | h
      · exact h
      · exact absurd h.symm hne
      · exact absurd h hnotlt
  · refine ⟨_, _, (leaf_set_full_split_eq bt lf key value hsorted habs hfull hsa hlen).2 (by omega),
      rfl, rfl, rfl, fun _ => ?_, fun he => absurd he (by omega)⟩
    rw [insListAt_head?_of_pos _ (by omega) _ _ hdropne]
    exact hdrophead

/-- Claim C4 witness: a concrete split with insertion index equal to
split_at, where the promoted separator 30 exceeds the right leaf's
first key 25. -/
theorem c4_split_separator_amended_witness :
    ∃ leftLeaf rightLeaf : Leaf Nat Nat,
      Leaf.set (BTree.openFresh Nat Nat 4) ⟨0, [10, 20, 30, 40], [1, 2, 3, 4], none⟩ 25 9 =
        some ((some (30, 0), none),
          (({ (BTree.openFresh Nat Nat 4) with nodeCount := 1 }).storeNode
            (.leaf leftLeaf)).storeNode (.leaf rightLeaf)) ∧
      rightLeaf.pageNr = 0 ∧
      leftLeaf.next = some 0 ∧
      rightLeaf.next = none ∧
      rightLeaf.keys.head? = some 25 ∧ (25 : Nat) < 30 := by
  have h := c4_split_separator_amended (BTree.openFresh Nat Nat 4)
    ⟨0, [10, 20, 30, 40], [1, 2, 3, 4], none⟩ 25 9
    (by decide) (by decide) (by decide) (by decide) (by decide)
  rcases h with ⟨l, r, heq, hp, hl, hr, _, hcase⟩
  have h2 := hcase (by decide)
  exact ⟨l, r, heq, hp, hl, hr, h2.1, by decide⟩

/-- Claim C5 (amended): splits respect the occupancy bounds for leaves
(the halves have split_at and len - split_at keys), but an internal
split leaves the right node with len - split_at - 1 keys; for a full
node (len = max_key_count) with max_key_count odd this is
split_at - 2, strictly below the claimed lower bound split_at - 1. -/
theorem c5_split_occupancy_amended
    (bt : BTree K V) (lf : Leaf K V) (nd : Internal K) (pageNr : Nat)
    (hlk : bt.splitAt < lf.keys.length) (hllen : lf.entries.length = lf.keys.length)
    (hk : bt.splitAt < nd.keys.length) (hent : nd.entries.length = nd.keys.length + 1) :
    ((lf.split pageNr bt.splitAt).map (fun r => (r.2.1.keys.length, r.2.2.keys.length)))
      = some (bt.splitAt, lf.keys.length - bt.splitAt)
    ∧ ((nd.split pageNr bt.splitAt).map (fun r => (r.2.1.keys.length, r.2.2.keys.length)))
      = some (bt.splitAt, nd.keys.length - bt.splitAt - 1)
    ∧ (∀ mkc : Nat, mkc % 2 = 1 → 3 ≤ mkc →
        mkc - (BTree.openFresh K V mkc).splitAt - 1 < (BTree.openFresh K V mkc).splitAt - 1) := by
  refine ⟨?_, ?_, ?_⟩
  · have hget : lf.keys[bt.splitAt]? = some lf.keys[bt.splitAt] :=
      List.getElem?_eq_getElem hlk
    rw [Leaf.split, hget]
    simp only []
    rw [if_pos (by omega)]
    simp [List.length_take]
    omega
  · have hget : nd.keys[bt.splitAt]? = some nd.keys[bt.splitAt] :=
      List.getElem?_eq_getElem hk
    rw [Internal.split, hget]
    simp only []
    rw [if_pos (by omega)]
    simp [List.length_take, List.length_drop]
    omega
  · intro mkc h1 h2
    simp only [BTree.openFresh]
    omega

/-- Claim C5 witness: with max_key_count 3 (split_at 2) a full leaf
splits into sizes (2, 1) but a full internal node splits into key
counts (2, 0), below split_at - 1 = 1. -/
theorem c5_split_occupancy_amended_witness :
    ((Leaf.split ⟨0, [1, 2, 3], [4, 5, 6], none⟩ 9 (BTree.openFresh Nat Nat 3).splitAt).map
        (fun r => (r.2.1.keys.length, r.2.2.keys.length))) = some (2, 1)
    ∧ ((Internal.split ⟨0, [1, 2, 3], [0, 1, 2, 3]⟩ 9 (BTree.openFresh Nat Nat 3).splitAt).map
        (fun r => (r.2.1.keys.length, r.2.2.keys.length))) = some (2, 0)
    ∧ 3 - (BTree.openFresh Nat Nat 3).splitAt - 1 < (BTree.openFresh Nat Nat 3).splitAt - 1 := by
  have h := c5_split_occupancy_amended (BTree.openFresh Nat Nat 3)
    ⟨0, [1, 2, 3], [4, 5, 6], none⟩ ⟨0, [1, 2, 3], [0, 1, 2, 3]⟩ 9
    (by decide) (by decide) (by decide) (by decide)
  exact ⟨h.1, h.2.1, h.2.2 3 (by decide) (by decide)⟩

end SepOccAmended


section LeafRemoveSpec

variable {K V : Type} [LinearOrder K]

theorem vecRemoveAt_eq (xs : List α) (i : Nat) (a : α) (h : xs[i]? = some a) :
    vecRemoveAt xs i = some (a, xs.eraseIdx i) := by
  rw [vecRemoveAt, h]

/-- Claim C6: Leaf::remove follows exactly the claimed algorithm: an
absent key returns (None, None) and changes nothing; otherwise the pair
at the key's index is removed, and when the leaf falls below split_at
keys and is not the root the four rebalance steps are tried in order:
transfer the left sibling's last pair (updating the parent separator at
rparent to the transferred key) when the left sibling has more than
split_at keys; else transfer the right sibling's first pair (updating
the parent separator at lparent to the right sibling's new first key)
when it has more than split_at keys; else merge this leaf into its left
sibling (left sibling's next becomes this leaf's next, this leaf's page
reclaimed and reported); else merge the right sibling into this leaf
(this leaf's next becomes the right sibling's next, the right sibling's
page reclaimed and reported). -/
theorem c6_leaf_remove_spec (bt : BTree K V) (lf : Leaf K V) (key : K)
    (hs : lf.keys.Sorted (· < ·)) :
    (∀ parent pinfo, key ∉ lf.keys →
      Leaf.remove bt lf key parent pinfo = some ((none, none), parent, bt))
    ∧ (∀ j v parent pinfo, lf.keys[j]? = some key → lf.entries[j]? = some v →
        bt.splitAt ≤ (lf.keys.eraseIdx j).length →
        Leaf.remove bt lf key parent pinfo =
          some ((some v, none), parent,
            bt.storeNode (.leaf ⟨lf.pageNr, lf.keys.eraseIdx j, lf.entries.eraseIdx j, lf.next⟩)))
    ∧ (∀ j v pinfo, lf.keys[j]? = some key → lf.entries[j]? = some v →
        (lf.keys.eraseIdx j).length < bt.splitAt →
        Leaf.remove bt lf key none pinfo =
          some ((some v, none), none,
            bt.storeNode (.leaf ⟨lf.pageNr, lf.keys.eraseIdx j, lf.entries.eraseIdx j, lf.next⟩)))
    ∧ (∀ j v par pinfo ls sib lk lv rp, lf.keys[j]? = some key → lf.entries[j]? = some v →
        (lf.keys.eraseIdx j).length < bt.splitAt →
        pinfo.lsibling = some ls →
        bt.loadNode ls = some (.leaf sib) →
        bt.splitAt < sib.keys.length →
        sib.keys.getLast? = some lk →
        sib.entries.getLast? = some lv →
        pinfo.rparent = some rp →
        rp < par.keys.length →
        Leaf.remove bt lf key (some par) (some pinfo) =
          some ((some v, none),
            some ⟨par.pageNr, par.keys.set rp lk, par.entries⟩,
            (bt.storeNode (.leaf ⟨sib.pageNr, sib.keys.dropLast, sib.entries.dropLast, sib.next⟩)).storeNode
              (.leaf ⟨lf.pageNr, lk :: lf.keys.eraseIdx j, lv :: lf.entries.eraseIdx j, lf.next⟩)))
    ∧ (∀ j v par pinfo ls sibL rs sibR rk rv nf lp,
        lf.keys[j]? = some key → lf.entries[j]? = some v →
        (lf.keys.eraseIdx j).length < bt.splitAt →
        pinfo.lsibling = some ls →
        bt.loadNode ls = some (.leaf sibL) →
        sibL.keys.length ≤ bt.splitAt →
        pinfo.rsibling = some rs →
        bt.loadNode rs = some (.leaf sibR) →
        bt.splitAt < sibR.keys.length →
        sibR.keys[0]? = some rk →
        sibR.entries[0]? = some rv →
        (sibR.keys.eraseIdx 0)[0]? = some nf →
        pinfo.lparent = some lp →
        lp < par.keys.length →
        Leaf.remove bt lf key (some par) (some pinfo) =
          some ((some v, none),
            some ⟨par.pageNr, par.keys.set lp nf, par.entries⟩,
            (bt.storeNode (.leaf ⟨sibR.pageNr, sibR.keys.eraseIdx 0, sibR.entries.eraseIdx 0, sibR.next⟩)).storeNode
              (.leaf ⟨lf.pageNr, lf.keys.eraseIdx j ++ [rk], lf.entries.eraseIdx j ++ [rv], lf.next⟩)))
    ∧ (∀ j v par pinfo ls sibL, lf.keys[j]? = some key → lf.entries[j]? = some v →
        (lf.keys.eraseIdx j).length < bt.splitAt →
        pinfo.lsibling = some ls →
        bt.loadNode ls = some (.leaf sibL) →
        sibL.keys.length ≤ bt.splitAt →
        pinfo.rsibling = none →
        Leaf.remove bt lf key (some par) (some pinfo) =
          some ((some v, some lf.pageNr), some par,
            (bt.onPageDeleted lf.pageNr).storeNode
              (.leaf ⟨sibL.pageNr, sibL.keys ++ lf.keys.eraseIdx j,
                sibL.entries ++ lf.entries.eraseIdx j, lf.next⟩)))
    ∧ (∀ j v par pinfo rs sibR, lf.keys[j]? = some key → lf.entries[j]? = some v →
        (lf.keys.eraseIdx j).length < bt.splitAt →
        pinfo.lsibling = none →
        pinfo.rsibling = some rs →
        lf.next = some rs →
        bt.loadNode rs = some (.leaf sibR) →
        sibR.keys.length ≤ bt.splitAt →
        Leaf.remove bt lf key (some par) (some pinfo) =
          some ((some v, some sibR.pageNr), some par,
            (bt.onPageDeleted sibR.pageNr).storeNode
              (.leaf ⟨lf.pageNr, lf.keys.eraseIdx j ++ sibR.keys,
                lf.entries.eraseIdx j ++ sibR.entries, sibR.next⟩)))
    ∧ (∀ j v par pinfo rs sibR rk rv nf lp,
        lf.keys[j]? = some key → lf.entries[j]? = some v →
        (lf.keys.eraseIdx j).length < bt.splitAt →
        pinfo.lsibling = none →
        pinfo.rsibling = some rs →
        bt.loadNode rs = some (.leaf sibR) →
        bt.splitAt < sibR.keys.length →
        sibR.keys[0]? = some rk →
        sibR.entries[0]? = some rv →
        (sibR.keys.eraseIdx 0)[0]? = some nf →
        pinfo.lparent = some lp →
        lp < par.keys.length →
        Leaf.remove bt lf key (some par) (some pinfo) =
          some ((some v, none),
            some ⟨par.pageNr, par.keys.set lp nf, par.entries⟩,
            (bt.storeNode (.leaf ⟨sibR.pageNr, sibR.keys.eraseIdx 0, sibR.entries.eraseIdx 0, sibR.next⟩)).storeNode
              (.leaf ⟨lf.pageNr, lf.keys.eraseIdx j ++ [rk], lf.entries.eraseIdx j ++ [rv], lf.next⟩)))
    ∧ (∀ j v par pinfo ls sibL rs sibR,
        lf.keys[j]? = some key → lf.entries[j]? = some v →
        (lf.keys.eraseIdx j).length < bt.splitAt →
        pinfo.lsibling = some ls →
        bt.loadNode ls = some (.leaf sibL) →
        sibL.keys.length ≤ bt.splitAt →
        pinfo.rsibling = some rs →
        bt.loadNode rs = some (.leaf sibR) →
        sibR.keys.length ≤ bt.splitAt →
        Leaf.remove bt lf key (some par) (some pinfo) =
          some ((some v, some lf.pageNr), some par,
            (bt.onPageDeleted lf.pageNr).storeNode
              (.leaf ⟨sibL.pageNr, sibL.keys ++ lf.keys.eraseIdx j,
                sibL.entries ++ lf.entries.eraseIdx j, lf.next⟩))) := by
  refine ⟨?_, ?_, ?_, ?_, ?_, ?_, ?_, ?_, ?_⟩
  · intro parent pinfo habs
    rw [Leaf.remove, binarySearch_absent lf.keys key hs habs]
  · intro j v parent pinfo hj hv hsize
    rw [Leaf.remove, binarySearch_found lf.keys key hs j hj]
    simp only []
    rw [vecRemoveAt_eq _ _ _ hj, vecRemoveAt_eq _ _ _ hv]
    simp only []
    rw [if_neg (by omega)]
  · intro j v pinfo hj hv hsize
    rw [Leaf.remove, binarySearch_found lf.keys key hs j hj]
    simp only []
    rw [vecRemoveAt_eq _ _ _ hj, vecRemoveAt_eq _ _ _ hv]
    simp only []
    rw [if_pos hsize]
  · intro j v par pinfo ls sib lk lv rp hj hv hsize hls hload hbig hlk hlv hrp hrpl
    rw [Leaf.remove, binarySearch_found lf.keys key hs j hj]
    simp only []
    rw [vecRemoveAt_eq _ _ _ hj, vecRemoveAt_eq _ _ _ hv]
    simp only []
    rw [if_pos hsize]
    rw [Leaf.rebalance, hls]
    simp only [hload]
    rw [if_pos hbig, hlk, hlv]
    simp only [hrp]
    rw [if_pos hrpl]
  · intro j v par pinfo ls sibL rs sibR rk rv nf lp hj hv hsize hls hloadL hsmallL hrs hloadR
      hbigR hrk hrv hnf hlp hlpl
    rw [Leaf.remove, binarySearch_found lf.keys key hs j hj]
    simp only []
    rw [vecRemoveAt_eq _ _ _ hj, vecRemoveAt_eq _ _ _ hv]
    simp only []
    rw [if_pos hsize]
    rw [Leaf.rebalance, hls]
    simp only [hloadL]
    rw [if_neg (by omega)]
    rw [Leaf.rightPhase, hrs]
    simp only [hloadR]
    rw [if_pos hbigR]
    rw [vecRemoveAt_eq _ _ _ hrk, vecRemoveAt_eq _ _ _ hrv]
    simp only [hlp]
    rw [hnf]
    simp only []
    rw [if_pos hlpl]
  · intro j v par pinfo ls sibL hj hv hsize hls hloadL hsmallL hrs
    rw [Leaf.remove, binarySearch_found lf.keys key hs j hj]
    simp only []
    rw [vecRemoveAt_eq _ _ _ hj, vecRemoveAt_eq _ _ _ hv]
    simp only []
    rw [if_pos hsize]
    rw [Leaf.rebalance, hls]
    simp only [hloadL]
    rw [if_neg (by omega)]
    rw [Leaf.rightPhase, hrs, Leaf.mergePhase, hls]
    simp only [hloadL]
    rfl
  · intro j v par pinfo rs sibR hj hv hsize hls hrs hnext hloadR hsmallR
    rw [Leaf.remove, binarySearch_found lf.keys key hs j hj]
    simp only []
    rw [vecRemoveAt_eq _ _ _ hj, vecRemoveAt_eq _ _ _ hv]
    simp only []
    rw [if_pos hsize]
    rw [Leaf.rebalance, hls]
    simp only []
    rw [Leaf.rightPhase, hrs]
    simp only [hloadR]
    rw [if_neg (by omega)]
    rw [Leaf.mergePhase, hls]
    simp only []
    rw [hrs]
    simp only []
    rw [if_pos (by rw [hnext])]
    simp only [hloadR]
    rfl
  · intro j v par pinfo rs sibR rk rv nf lp hj hv hsize hls hrs hloadR hbigR hrk hrv hnf hlp hlpl
    rw [Leaf.remove, binarySearch_found lf.keys key hs j hj]
    simp only []
    rw [vecRemoveAt_eq _ _ _ hj, vecRemoveAt_eq _ _ _ hv]
    simp only []
    rw [if_pos hsize]
    rw [Leaf.rebalance, hls]
    simp only []
    rw [Leaf.rightPhase, hrs]
    simp only [hloadR]
    rw [if_pos hbigR]
    rw [vecRemoveAt_eq _ _ _ hrk, vecRemoveAt_eq _ _ _ hrv]
    simp only [hlp]
    rw [hnf]
    simp only []
    rw [if_pos hlpl]
  · intro j v par pinfo ls sibL rs sibR hj hv hsize hls hloadL hsmallL hrs hloadR hsmallR
    rw [Leaf.remove, binarySearch_found lf.keys key hs j hj]
    simp only []
    rw [vecRemoveAt_eq _ _ _ hj, vecRemoveAt_eq _ _ _ hv]
    simp only []
    rw [if_pos hsize]
    rw [Leaf.rebalance, hls]
    simp only [hloadL]
    rw [if_neg (by omega)]
    rw [Leaf.rightPhase, hrs]
    simp only [hloadR]
    rw [if_neg (by omega)]
    rw [Leaf.mergePhase, hls]
    simp only [hloadL]
    rfl

/-- Claim C6 witness: a concrete left transfer (max_key_count 4,
split_at 2): removing 5 from leaf [5, 6] underflows; the left sibling
[1, 2, 3] donates its last pair and the parent separator at rparent
becomes 3. -/
theorem c6_leaf_remove_spec_witness :
    ([5, 6] : List Nat).Sorted (· < ·) ∧
    Leaf.remove ((BTree.openFresh Nat Nat 4).storeNode (.leaf ⟨1, [1, 2, 3], [10, 20, 30], some 2⟩))
      ⟨2, [5, 6], [50, 60], none⟩ 5
      (some ⟨3, [5], [1, 2]⟩) (some ⟨2, none, some 0, some 1, none⟩) =
      some ((some 50, none),
        some ⟨3, [3], [1, 2]⟩,
        (((BTree.openFresh Nat Nat 4).storeNode (.leaf ⟨1, [1, 2, 3], [10, 20, 30], some 2⟩)).storeNode
          (.leaf ⟨1, [1, 2], [10, 20], some 2⟩)).storeNode
          (.leaf ⟨2, [3, 6], [30, 60], none⟩)) :=
  ⟨by decide,
    (c6_leaf_remove_spec
      ((BTree.openFresh Nat Nat 4).storeNode (.leaf ⟨1, [1, 2, 3], [10, 20, 30], some 2⟩))
      ⟨2, [5, 6], [50, 60], none⟩ 5 (by decide)).2.2.2.1
      0 50 ⟨3, [5], [1, 2]⟩ ⟨2, none, some 0, some 1, none⟩ 1
      ⟨1, [1, 2, 3], [10, 20, 30], some 2⟩ 3 30 0
      (by decide) (by decide) (by decide) (by decide) (by decide) (by decide)
      (by decide) (by decide) (by decide) (by decide)⟩

end LeafRemoveSpec


section RemovePageSpec

variable {K V : Type} [LinearOrder K]

/-- Claim C7: when a reclaimed page sits at children index j of an
internal node (children strictly ascending so that the binary search
finds it, and j at least 1), remove_page removes keys[j-1] and
children[j]; if the node is the root and its key array thereby becomes
empty, the tree root is reassigned to the remaining children[0] and the
old root's page is reclaimed; with keys remaining, or below a parent
with no underflow, nothing else changes. -/
theorem c7_remove_page_spec
    (bt : BTree K V) (self : Internal K) (pageNr : Nat) (j : Nat)
    (hsorted : self.entries.Sorted (· < ·))
    (hj : self.entries[j]? = some pageNr)
    (h1 : 1 ≤ j)
    (hk : j - 1 < self.keys.length) :
    (∀ newRoot pinfo, self.keys.length = 1 →
      (self.entries.eraseIdx j)[0]? = some newRoot →
      Internal.removePage (V := V) bt self pageNr none pinfo =
        some (some self.pageNr,
          ⟨self.pageNr, self.keys.eraseIdx (j - 1), self.entries.eraseIdx j⟩, none,
          ({ bt with rootPageNr := newRoot }).onPageDeleted self.pageNr))
    ∧ (∀ pinfo, 2 ≤ self.keys.length →
      Internal.removePage (V := V) bt self pageNr none pinfo =
        some (none, ⟨self.pageNr, self.keys.eraseIdx (j - 1), self.entries.eraseIdx j⟩,
          none, bt))
    ∧ (∀ par pinfo, bt.splitAt ≤ (self.keys.eraseIdx (j - 1)).length →
      Internal.removePage (V := V) bt self pageNr (some par) pinfo =
        some (none, ⟨self.pageNr, self.keys.eraseIdx (j - 1), self.entries.eraseIdx j⟩,
          some par, bt)) := by
  have hsub : usizeSub j 1 = some (j - 1) := by
    unfold usizeSub
    rw [if_pos h1]
  have hkk : self.keys[j - 1]? = some self.keys[j - 1] := List.getElem?_eq_getElem hk
  have hlen1 : (self.keys.eraseIdx (j - 1)).length = self.keys.length - 1 := by
    rw [List.length_eraseIdx]
    simp [hk]
  refine ⟨?_, ?_, ?_⟩
  · intro newRoot pinfo hone hE0
    rw [Internal.removePage, binarySearch_found self.entries pageNr hsorted j hj]
    simp only []
    rw [hsub]
    simp only []
    rw [vecRemoveAt_eq _ _ _ hkk, vecRemoveAt_eq _ _ _ hj]
    simp only []
    rw [if_pos (by omega)]
    rw [hE0]
  · intro pinfo htwo
    rw [Internal.removePage, binarySearch_found self.entries pageNr hsorted j hj]
    simp only []
    rw [hsub]
    simp only []
    rw [vecRemoveAt_eq _ _ _ hkk, vecRemoveAt_eq _ _ _ hj]
    simp only []
    rw [if_neg (by omega)]
  · intro par pinfo hno
    rw [Internal.removePage, binarySearch_found self.entries pageNr hsorted j hj]
    simp only []
    rw [hsub]
    simp only []
    rw [vecRemoveAt_eq _ _ _ hkk, vecRemoveAt_eq _ _ _ hj]
    simp only []
    rw [if_neg (by omega)]

/-- Claim C7 witness: the root [30] over children [0, 1] loses child
page 1 (index 1); keys[0] and children[1] are removed, the root
collapses to children[0] = 0 and the root page 2 is reclaimed. -/
theorem c7_remove_page_spec_witness :
    ([0, 1] : List Nat).Sorted (· < ·) ∧
    Internal.removePage (K := Nat) (V := Nat) (BTree.openFresh Nat Nat 4)
      ⟨2, [30], [0, 1]⟩ 1 none none =
      some (some 2, ⟨2, [], [0]⟩, none,
        ({ (BTree.openFresh Nat Nat 4) with rootPageNr := 0 }).onPageDeleted 2) :=
  ⟨by decide,
    (c7_remove_page_spec (BTree.openFresh Nat Nat 4) ⟨2, [30], [0, 1]⟩ 1 1
      (by decide) (by decide) (by decide) (by decide)).1 0 none (by decide) (by decide)⟩

end RemovePageSpec


section InternalSplitSpec

variable {K V : Type} [LinearOrder K]

/-- Claim C3 (amended): an internal split promotes the pre-split
keys[split_at]; the left node keeps keys [0, split_at) and children
[0, split_at]; the right node takes keys [split_at+1, end) and children
[split_at+1, end); a propagated pair with insertion index j < split_at
goes into the left node at index j, and with j > split_at into the
right node at local index j - split_at - 1 (at j = split_at the usize
computation underflows and the code panics). -/
theorem c3_internal_split_insert_spec
    (bt : BTree K V) (nd : Internal K) (key : K) (page : Nat) (j : Nat)
    (hsa : bt.splitAt < nd.keys.length)
    (hent : nd.entries.length = nd.keys.length + 1)
    (hjle : j ≤ nd.keys.length) :
    (j < bt.splitAt →
      Internal.splitAndInsert (V := V) bt nd key page j =
        some ((some (nd.keys.getD bt.splitAt key, bt.nodeCount), none),
          (({ bt with nodeCount := bt.nodeCount + 1 }).storeNode
            (.internal ⟨nd.pageNr,
              insListAt j key (nd.keys.take bt.splitAt),
              insListAt (j + 1) page (nd.entries.take (bt.splitAt + 1))⟩)).storeNode
          (.internal ⟨bt.nodeCount, nd.keys.drop (bt.splitAt + 1),
            nd.entries.drop (bt.splitAt + 1)⟩)))
    ∧ (bt.splitAt < j →
      Internal.splitAndInsert (V := V) bt nd key page j =
        some ((some (nd.keys.getD bt.splitAt key, bt.nodeCount), none),
          (({ bt with nodeCount := bt.nodeCount + 1 }).storeNode
            (.internal ⟨nd.pageNr, nd.keys.take bt.splitAt,
              nd.entries.take (bt.splitAt + 1)⟩)).storeNode
          (.internal ⟨bt.nodeCount,
            insListAt (j - bt.splitAt - 1) key (nd.keys.drop (bt.splitAt + 1)),
            insListAt (j - bt.splitAt) page (nd.entries.drop (bt.splitAt + 1))⟩))) := by
  have hget : nd.keys[bt.splitAt]? = some (nd.keys.getD bt.splitAt key) := by
    rw [List.getD_eq_getElem nd.keys key hsa]
    exact List.getElem?_eq_getElem hsa
  have hsplit : nd.split bt.nodeCount bt.splitAt =
      some (nd.keys.getD bt.splitAt key,
        ⟨nd.pageNr, nd.keys.take bt.splitAt, nd.entries.take (bt.splitAt + 1)⟩,
        ⟨bt.nodeCount, nd.keys.drop (bt.splitAt + 1), nd.entries.drop (bt.splitAt + 1)⟩) := by
    have h2 : bt.splitAt + 1 ≤ nd.entries.length := by omega
    rw [Internal.split, hget]
    simp only []
    rw [if_pos h2]
  constructor
  · intro hj
    rw [Internal.splitAndInsert]
    simp only [BTree.nextPageNr, hsplit]
    rw [if_pos hj]
    rw [Internal.insertAt]
    rw [vecInsert_eq_some (by simp [List.length_take]; omega) key,
        vecInsert_eq_some (by simp [List.length_take]; omega) page]
  · intro hj
    rw [Internal.splitAndInsert]
    simp only [BTree.nextPageNr, hsplit]
    rw [if_neg (by omega)]
    have hsub : usizeSub (j - bt.splitAt) 1 = some (j - bt.splitAt - 1) := by
      simp [usizeSub]; omega
    rw [hsub]
    simp only []
    rw [Internal.insertAt]
    rw [vecInsert_eq_some (by simp [List.length_drop]; omega) key]
    have : j - bt.splitAt - 1 + 1 = j - bt.splitAt := by omega
    rw [this]
    rw [vecInsert_eq_some (by simp [List.length_drop]; omega) page]

/-- Claim C3 witness: a concrete full internal node (max_key_count 4,
split_at 2) receiving a propagated pair with j = 3. -/
theorem c3_internal_split_insert_spec_witness :
    Internal.splitAndInsert (V := Nat) (BTree.openFresh Nat Nat 4)
      ⟨2, [30, 50, 70, 90], [0, 1, 3, 4, 5]⟩ 84 9 3 =
      some ((some (70, 0), none),
        (({ (BTree.openFresh Nat Nat 4) with nodeCount := 1 }).storeNode
          (.internal ⟨2, [30, 50], [0, 1, 3]⟩)).storeNode
        (.internal ⟨0, [84, 90], [4, 9, 5]⟩)) := by
  have h := (c3_internal_split_insert_spec (BTree.openFresh Nat Nat 4)
    ⟨2, [30, 50, 70, 90], [0, 1, 3, 4, 5]⟩ 84 9 3
    (by decide) (by decide) (by decide)).2 (by decide)
  exact h

end InternalSplitSpec

end BPT
